import Mathlib

/-!
Shallow embedding of the product-management-dashboard analytics core
(`EpicMetricsService` and `ForecastService`) and proofs about it.

Conventions used throughout the embedding:
* JavaScript numbers are modelled as `ℚ` (exact rationals); values that the
  source only ever holds as integers (timestamps in milliseconds, counts,
  `Math.round` results) are modelled as `ℤ` or `ℕ`.
* `Math.round x` is `⌊x + 1/2⌋` (round half toward positive infinity), which
  is Mathlib's `round` on `ℚ`; we spell it `jsRound`.
* Optional / possibly-absent fields are `Option`; the JS `a || b` fallback,
  which also treats `0` and `""` as absent, is modelled by `jsOrQ` / `jsOrS`.
* Dates are epoch milliseconds (`ℤ`); "now" (`new Date()`) is an explicit
  parameter of every time-dependent function.
* `Math.random()`-driven index choice is an explicit sampler parameter
  `ℕ → ℕ`; the source draws `Math.floor(Math.random() * len)`, always in
  `[0, len)`, which we model by reducing the sampled value modulo the length.
-/

namespace Dashboard

/-- JS `Math.round` on rationals: round half toward positive infinity. -/
def jsRound (q : ℚ) : ℤ := round q

/-- Round to 2 decimal places: `Math.round(x * 100) / 100`. -/
def round2 (q : ℚ) : ℚ := (jsRound (q * 100) : ℚ) / 100

/-- Round to 1 decimal place: `Math.round(x * 10) / 10`. -/
def round1 (q : ℚ) : ℚ := (jsRound (q * 10) : ℚ) / 10

/-- JS `o || d` for an optional string: absent or empty (falsy) yields `d`. -/
def jsOrS (o : Option String) (d : String) : String :=
  match o with
  | none => d
  | some s => if s = "" then d else s

/-- JS `s || d` for a present string: empty (falsy) yields `d`. -/
def jsOrStr (s d : String) : String := if s = "" then d else s

/-- JS `o || d` for an optional number: absent or zero (falsy) yields `d`. -/
def jsOrQ (o : Option ℚ) (d : ℚ) : ℚ :=
  match o with
  | none => d
  | some x => if x = 0 then d else x

/-- A child issue, as read by `calculateEpicProgress`: the fields accessed are
`fields?.status?.statusCategory?.key` and `fields?.customfield_10061`. -/
structure ChildIssue where
  statusCategory : Option String
  points : Option ℚ
deriving DecidableEq

/-- JS `child.fields?.status?.statusCategory?.key || 'new'`. -/
def childStatusCategory (c : ChildIssue) : String := jsOrS c.statusCategory "new"

/-- JS `child.fields?.customfield_10061 || 0`. -/
def childPoints (c : ChildIssue) : ℚ := jsOrQ c.points 0

/-- Result record of `calculateEpicProgress`. -/
structure ProgressInfo where
  total : ℕ
  done : ℕ
  inProgress : ℕ
  todo : ℕ
  totalPoints : ℚ
  completedPoints : ℚ
  progress : ℤ
deriving DecidableEq

/-- Embeds `calculateEpicProgress(children)`: classify children by status category,
sum story points, and report `round(done/total*100)` (0 with no children). -/
def calculateEpicProgress (children : List ChildIssue) : ProgressInfo :=
  if children = [] then ⟨0, 0, 0, 0, 0, 0, 0⟩
  else
    let doneList := children.filter fun c => childStatusCategory c = "done"
    let done := doneList.length
    let inProgress := (children.filter fun c => childStatusCategory c = "indeterminate").length
    let todo := (children.filter fun c =>
      childStatusCategory c ≠ "done" ∧ childStatusCategory c ≠ "indeterminate").length
    let totalPoints := (children.map childPoints).sum
    let completedPoints := (doneList.map childPoints).sum
    let total := children.length
    let progress := if total > 0 then jsRound ((done : ℚ) / (total : ℚ) * 100) else 0
    ⟨total, done, inProgress, todo, totalPoints, completedPoints, progress⟩

/-- A raw issue record (epic or initiative) with the fields the service reads:
`key`, `fields.summary`, `fields.status.name`, `fields.status.statusCategory.key`,
`fields.assignee.displayName`, `fields.created`, `fields.duedate`. -/
structure RawIssue where
  key : String
  summary : Option String := none
  statusName : Option String := none
  statusCategory : Option String := none
  assigneeName : Option String := none
  created : Option ℤ := none
  duedate : Option ℤ := none
deriving DecidableEq

/-- One entry of a dependency link list: `{key, status}`. -/
structure DepLink where
  key : String
  status : Option String
deriving DecidableEq

/-- The dependency summary handed to `calculateEpicHealth`. -/
structure Dependencies where
  blocks : List DepLink := []
  blockedBy : List DepLink := []
  relatesTo : List DepLink := []
deriving DecidableEq

/-- Result record of `calculateEpicHealth`. -/
structure HealthInfo where
  health : String
  reason : String
deriving DecidableEq

/-- The closed-status set used to dismiss blockers. -/
def closedStatuses : List String := ["done", "closed", "resolved"]

/-- JS `.toLowerCase()`, written as a structural map over the characters (the
status strings compared here are ASCII). -/
def lowerString (s : String) : String := ⟨s.data.map Char.toLower⟩

/-- JS `(dependencies?.blockedBy || []).filter(b => !closed.includes((b.status || '').toLowerCase()))`. -/
def unresolvedBlockersOf (dependencies : Option Dependencies) : List DepLink :=
  ((dependencies.map (·.blockedBy)).getD []).filter fun b =>
    ¬ closedStatuses.contains (lowerString (b.status.getD ""))

/-- Embeds `calculateEpicHealth(epic, children, dependencies)` with `now` explicit.
An absent/unparseable `created` makes `totalTime` NaN in the source, so
`totalTime > 0` is false and `timeProgress` falls to 100; the `none` branch
of the inner match reproduces exactly that. -/
def calculateEpicHealth (now : ℤ) (epic : RawIssue) (children : List ChildIssue)
    (dependencies : Option Dependencies) : HealthInfo :=
  if epic.statusCategory = some "done" then ⟨"done", "Completed"⟩
  else
    let unresolvedBlockers := unresolvedBlockersOf dependencies
    if unresolvedBlockers.length > 0 then
      ⟨"blocked", "Blocked by " ++ String.intercalate ", " (unresolvedBlockers.map (·.key))⟩
    else
      let childProgress := calculateEpicProgress children
      match epic.duedate with
      | none =>
        if childProgress.total = 0 then ⟨"no-data", "No child issues"⟩
        else if childProgress.progress ≥ 70 then
          ⟨"on-track", toString childProgress.progress ++ "% done"⟩
        else if childProgress.progress ≥ 30 then
          ⟨"on-track", toString childProgress.progress ++ "% done"⟩
        else ⟨"on-track", toString childProgress.progress ++ "% done (no due date)"⟩
      | some due =>
        let timeProgress : ℤ :=
          match epic.created with
          | some c =>
            if due - c > 0 then jsRound (((now - c : ℤ) : ℚ) / ((due - c : ℤ) : ℚ) * 100)
            else 100
          | none => 100
        if now > due ∧ childProgress.progress < 100 then
          ⟨"at-risk", "Overdue (" ++ toString childProgress.progress ++ "% done)"⟩
        else if timeProgress > 0 ∧ childProgress.progress < timeProgress - 15 then
          ⟨"at-risk", toString childProgress.progress ++ "% done, " ++
            toString timeProgress ++ "% time elapsed"⟩
        else ⟨"on-track", toString childProgress.progress ++ "% done"⟩

/-- An evaluated epic (the record built by `buildEpicData`) with the fields
read by the aggregation, prioritization, flow and WIP functions. -/
structure EpicData where
  key : String
  summary : String
  status : String
  statusCategory : String
  priority : String
  labels : List String
  assignee : String
  created : Option ℤ
  dueDate : Option ℤ
  resolutionDate : Option ℤ
  storyPoints : ℚ
  parentKey : Option String
  children : ProgressInfo
  progress : ℤ
  health : String
  rawFields : List (String × ℚ)
deriving DecidableEq

/-- JS `epic._rawFields?.[field]`: first binding of `field` in the raw field map. -/
def lookupRaw (epic : EpicData) (field : String) : Option ℚ :=
  (epic.rawFields.find? fun kv => kv.1 == field).map Prod.snd

/-- The WSJF field-mapping configuration. -/
structure FieldMappings where
  businessValue : String
  timeCriticality : String
  riskReduction : String
  jobSize : String
deriving DecidableEq

/-- Result record of `calculateWSJF`. -/
structure WSJFResult where
  businessValue : ℚ
  timeCriticality : ℚ
  riskReduction : ℚ
  jobSize : ℚ
  costOfDelay : ℚ
  wsjfScore : ℚ
deriving DecidableEq

/-- JS `priorityScores[p] || 3`. -/
def priorityScore (p : String) : ℚ :=
  if p = "Highest" then 5
  else if p = "High" then 4
  else if p = "Medium" then 3
  else if p = "Low" then 2
  else if p = "Lowest" then 1
  else 3

/-- Embeds `calculateWSJF(epic, fieldMappings)` with `now` explicit (the fallback
branch compares `daysUntilDue` computed from `new Date()`). -/
def calculateWSJF (now : ℤ) (epic : EpicData) (fieldMappings : Option FieldMappings) :
    WSJFResult :=
  let values : ℚ × ℚ × ℚ × ℚ :=
    match fieldMappings with
    | some fm =>
      let businessValue := jsOrQ (lookupRaw epic fm.businessValue) 0
      let timeCriticality := jsOrQ (lookupRaw epic fm.timeCriticality) 0
      let riskReduction := jsOrQ (lookupRaw epic fm.riskReduction) 0
      let jobSize := jsOrQ (lookupRaw epic fm.jobSize)
        (jsOrQ (some epic.children.totalPoints) 1)
      (businessValue, timeCriticality, riskReduction, jobSize)
    | none =>
      let basePriority := priorityScore epic.priority
      let childCount := epic.children.total
      let childBonus : ℚ :=
        if childCount ≥ 20 then 2 else if childCount ≥ 10 then 3/2
        else if childCount ≥ 5 then 1 else 1/2
      let progressBonus : ℚ := if epic.progress > 50 then 1/2 else 0
      let healthBonus : ℚ :=
        if epic.health = "blocked" then 1 else if epic.health = "at-risk" then 1/2 else 0
      let businessValue :=
        min 8 ((jsRound ((basePriority + childBonus + progressBonus + healthBonus) * 10) : ℚ) / 10)
      let timeCriticality : ℚ :=
        match epic.dueDate with
        | some due =>
          let daysUntilDue : ℚ := ((due - now : ℤ) : ℚ) / 86400000
          if daysUntilDue < 14 then 5 else if daysUntilDue < 30 then 4
          else if daysUntilDue < 60 then 3 else if daysUntilDue < 90 then 2 else 1
        | none => 2
      let riskReduction : ℚ :=
        if epic.health = "blocked" then 4 else if epic.health = "at-risk" then 3 else 2
      let jobSize := jsOrQ (some epic.children.totalPoints) (jsOrQ (some epic.storyPoints) 1)
      (businessValue, timeCriticality, riskReduction, jobSize)
  let businessValue := values.1
  let timeCriticality := values.2.1
  let riskReduction := values.2.2.1
  let jobSize := max values.2.2.2 (1/2)
  let costOfDelay := businessValue + timeCriticality + riskReduction
  ⟨businessValue, timeCriticality, riskReduction, jobSize, costOfDelay,
    round2 (costOfDelay / jobSize)⟩

/-- The per-epic summary pushed onto an initiative's `epics` list. -/
structure BucketEpic where
  key : String
  summary : String
  status : String
  progress : ℤ
  health : String
  storyPoints : ℚ
  completedPoints : ℚ
deriving DecidableEq

/-- One value of the initiative map built by `aggregateByInitiative`. The JS
object only acquires a `health` property in the final pass; we carry a `""`
placeholder until then (it is never read before being assigned). -/
structure InitiativeBucket where
  key : String
  summary : String
  status : String
  statusCategory : String
  assignee : String
  dueDate : Option ℤ
  epics : List BucketEpic
  totalEpics : ℕ
  completedEpics : ℕ
  progress : ℤ
  totalStoryPoints : ℚ
  completedStoryPoints : ℚ
  health : String
deriving DecidableEq

/-- JS `Map.get`: first binding of the key. -/
def mapGet {β : Type} : List (String × β) → String → Option β
  | [], _ => none
  | (k', v) :: rest, k => if k' = k then some v else mapGet rest k

/-- JS `Map.set`: replace the first binding of the key in place, else append
(JS `Map` preserves insertion order and updates keep their position). -/
def mapSet {β : Type} : List (String × β) → String → β → List (String × β)
  | [], k, v => [(k, v)]
  | (k', v') :: rest, k, v =>
    if k' = k then (k', v) :: rest else (k', v') :: mapSet rest k v

/-- The seeded bucket for a known initiative. -/
def seedBucket (init : RawIssue) : InitiativeBucket :=
  ⟨init.key, jsOrS init.summary "", jsOrS init.statusName "Unknown",
    jsOrS init.statusCategory "new", jsOrS init.assigneeName "Unassigned",
    init.duedate, [], 0, 0, 0, 0, 0, ""⟩

/-- The sentinel bucket for epics without a parent initiative. -/
def unlinkedBucket : InitiativeBucket :=
  ⟨"_unlinked", "Epics without Initiative", "-", "new", "-", none,
    [], 0, 0, 0, 0, 0, ""⟩

/-- One loop-body step of the epic-assignment loop: push the epic summary and
bump the counters on the chosen bucket. -/
def pushEpic (b : InitiativeBucket) (e : EpicData) : InitiativeBucket :=
  { b with
    epics := b.epics ++
      [⟨e.key, e.summary, e.status, e.progress, e.health,
        e.children.totalPoints, e.children.completedPoints⟩],
    totalEpics := b.totalEpics + 1,
    completedEpics := b.completedEpics + (if e.statusCategory = "done" then 1 else 0),
    totalStoryPoints := b.totalStoryPoints + e.children.totalPoints,
    completedStoryPoints := b.completedStoryPoints + e.children.completedPoints }

/-- Assign one epic: `initiativeMap.get(parentKey) || initiativeMap.get('_unlinked')`,
then mutate that bucket. The `none` fallthrough is unreachable because the
`_unlinked` bucket is always seeded before this loop runs. -/
def assignEpic (m : List (String × InitiativeBucket)) (e : EpicData) :
    List (String × InitiativeBucket) :=
  let parentKey := jsOrS e.parentKey "_unlinked"
  let targetKey := if (mapGet m parentKey).isSome then parentKey else "_unlinked"
  match mapGet m targetKey with
  | some b => mapSet m targetKey (pushEpic b e)
  | none => m

/-- The final per-bucket pass: derive `progress` and `health`. -/
def finalizeBucket (b : InitiativeBucket) : InitiativeBucket :=
  let progress :=
    if b.totalEpics > 0 then jsRound ((b.completedEpics : ℚ) / (b.totalEpics : ℚ) * 100) else 0
  let health :=
    if b.totalEpics = 0 then "no-data"
    else if b.statusCategory = "done" ∨ b.completedEpics = b.totalEpics then "done"
    else if (b.epics.filter fun e => e.health = "blocked").length > 0 then "blocked"
    else if (b.epics.filter fun e => e.health = "at-risk").length > 0 then "at-risk"
    else "on-track"
  { b with progress := progress, health := health }

/-- Embeds `aggregateByInitiative` up to (and including) the per-initiative
progress/health pass, before the final filter. -/
def aggregatePre (initiatives : List RawIssue) (epics : List EpicData) :
    List InitiativeBucket :=
  let m0 := initiatives.foldl (fun m i => mapSet m i.key (seedBucket i)) []
  let m1 := mapSet m0 "_unlinked" unlinkedBucket
  let m2 := epics.foldl assignEpic m1
  (m2.map Prod.snd).map finalizeBucket

/-- Embeds `aggregateByInitiative(initiatives, epics)`: the full function, dropping
the unlinked bucket when it holds no epics. -/
def aggregateByInitiative (initiatives : List RawIssue) (epics : List EpicData) :
    List InitiativeBucket :=
  (aggregatePre initiatives epics).filter fun i => i.key ≠ "_unlinked" ∨ i.epics.length > 0

/-- Lead-time detail row of `calculateEpicLeadCycleTime`. -/
structure LeadEpicDetail where
  key : String
  summary : String
  created : Option ℤ
  resolved : Option ℤ
  leadTimeDays : ℤ
deriving DecidableEq

/-- One histogram bucket `{range, start, end, count}` (`end` is a Lean
keyword, so the field is named `stop`). -/
structure HistBucket where
  range : String
  start : ℤ
  stop : ℤ
  count : ℕ
deriving DecidableEq

/-- The p50/p70/p85/p95 record of the lead-time report. -/
structure LeadPercentiles where
  p50 : ℤ
  p70 : ℤ
  p85 : ℤ
  p95 : ℤ
deriving DecidableEq

/-- Result record of `calculateEpicLeadCycleTime`. -/
structure LeadCycleReport where
  totalResolved : ℕ
  average : ℤ
  percentiles : LeadPercentiles
  histogram : List HistBucket
  epics : List LeadEpicDetail
deriving DecidableEq

/-- JS `e.statusCategory === 'done' && e.resolutionDate && e.created`. -/
def isResolvedEpic (e : EpicData) : Bool :=
  e.statusCategory == "done" && e.resolutionDate.isSome && e.created.isSome

/-- JS `Math.round((resolved - created) / (1000*60*60*24))`; only applied to
epics whose two dates are present. -/
def leadTimeDaysOf (e : EpicData) : ℤ :=
  jsRound (((e.resolutionDate.getD 0 - e.created.getD 0 : ℤ) : ℚ) / 86400000)

/-- The percentile helper of `calculateEpicLeadCycleTime`:
`arr.length === 0 ? 0 : arr[Math.max(0, Math.ceil(arr.length * p / 100) - 1)]`. -/
def leadPercentile (arr : List ℤ) (p : ℚ) : ℤ :=
  if arr.length = 0 then 0
  else arr.getD (max 0 (⌈(arr.length : ℚ) * p / 100⌉ - 1)).toNat 0

/-- The 7-day-bucket histogram loop of `calculateEpicLeadCycleTime`:
`for (let start = 0; start <= maxDays; start += 7)` over the ascending-sorted
lead times (`maxDays` is `sorted[sorted.length - 1]`). For `maxDays ≥ 0` the
loop body runs `maxDays / 7 + 1` times; for `maxDays < 0` (unreachable, since
every stored lead time is non-negative) it runs zero times. -/
def leadHistogram (sorted : List ℤ) : List HistBucket :=
  if sorted.length = 0 then []
  else
    let maxDays := sorted.getLastD 0
    if maxDays < 0 then []
    else
      (List.range (maxDays.toNat / 7 + 1)).map fun i : ℕ =>
        let start : ℤ := 7 * (i : ℤ)
        let stop : ℤ := start + 7
        ⟨toString start ++ "-" ++ toString stop ++ "d", start, stop,
          (sorted.filter fun d => start ≤ d ∧ d < stop).length⟩

/-- Embeds `calculateEpicLeadCycleTime(epics)`. -/
def calculateEpicLeadCycleTime (epics : List EpicData) : LeadCycleReport :=
  let resolvedEpics := epics.filter isResolvedEpic
  let kept := resolvedEpics.filter fun e => leadTimeDaysOf e ≥ 0
  let leadTimes := kept.map leadTimeDaysOf
  let epicDetails : List LeadEpicDetail :=
    kept.map fun e => ⟨e.key, e.summary, e.created, e.resolutionDate, leadTimeDaysOf e⟩
  let sorted := List.insertionSort (· ≤ ·) leadTimes
  let avg := if sorted.length > 0 then jsRound ((sorted.sum : ℚ) / (sorted.length : ℚ)) else 0
  ⟨resolvedEpics.length, avg,
    ⟨leadPercentile sorted 50, leadPercentile sorted 70,
      leadPercentile sorted 85, leadPercentile sorted 95⟩,
    leadHistogram sorted,
    List.insertionSort (fun a b => a.leadTimeDays ≥ b.leadTimeDays) epicDetails⟩

/-- The `initiatives` argument of `calculateWIPMetrics`: records looked up by
`key`, supplying an optional `summary`. -/
structure WIPInitiative where
  key : String
  summary : Option String
deriving DecidableEq

/-- A `{name, count}` row of the WIP groupings. -/
structure NameCount where
  name : String
  count : ℕ
deriving DecidableEq

/-- A WIP-age row. -/
structure WIPAgeEntry where
  key : String
  summary : String
  assignee : String
  ageDays : ℤ
  health : String
deriving DecidableEq

/-- Result record of `calculateWIPMetrics`. -/
structure WIPReport where
  totalWIP : ℕ
  wipByAssignee : List NameCount
  wipByInitiative : List NameCount
  wipAge : List WIPAgeEntry
  avgAge : ℤ
deriving DecidableEq

/-- JS `obj[k] = (obj[k] || 0) + 1` on a plain JS object used as a counter map. -/
def bumpCount : List (String × ℕ) → String → List (String × ℕ)
  | [], k => [(k, 1)]
  | (k', v) :: rest, k =>
    if k' = k then (k', v + 1) :: rest else (k', v) :: bumpCount rest k

/-- The WIP-by-initiative grouping key of one epic:
`initiatives?.find(i => i.key === (epic.parentKey || '_unlinked'))?.summary || 'Unlinked'`. -/
def wipInitiativeName (initiatives : Option (List WIPInitiative)) (e : EpicData) : String :=
  let parentKey := jsOrS e.parentKey "_unlinked"
  let found := (initiatives.getD []).find? fun i => i.key == parentKey
  jsOrS (found.bind (·.summary)) "Unlinked"

/-- Embeds `calculateWIPMetrics(epics, initiatives)` with `now` explicit. An epic
with an absent `created` would make `ageDays` NaN in the source; we normalize
that unreachable-in-practice case to 0 (no claim inspects age values). -/
def calculateWIPMetrics (now : ℤ) (epics : List EpicData)
    (initiatives : Option (List WIPInitiative)) : WIPReport :=
  let wipEpics := epics.filter fun e => e.statusCategory == "indeterminate"
  let byAssignee := wipEpics.foldl (fun m e => bumpCount m (jsOrStr e.assignee "Unassigned")) []
  let byInitiative := wipEpics.foldl (fun m e => bumpCount m (wipInitiativeName initiatives e)) []
  let wipAge : List WIPAgeEntry := wipEpics.map fun e =>
    let ageDays := match e.created with
      | some c => jsRound (((now - c : ℤ) : ℚ) / 86400000)
      | none => 0
    ⟨e.key, e.summary, e.assignee, ageDays, e.health⟩
  let wipAgeSorted := List.insertionSort (fun a b => a.ageDays ≥ b.ageDays) wipAge
  ⟨wipEpics.length,
    List.insertionSort (fun a b => a.count ≥ b.count) (byAssignee.map fun kv => ⟨kv.1, kv.2⟩),
    List.insertionSort (fun a b => a.count ≥ b.count) (byInitiative.map fun kv => ⟨kv.1, kv.2⟩),
    wipAgeSorted,
    if wipAgeSorted.length > 0 then
      jsRound (((wipAgeSorted.map (·.ageDays)).sum : ℚ) / (wipAgeSorted.length : ℚ))
    else 0⟩

/-- A `{period, count}` throughput point consumed by the forecaster. -/
structure ThroughputPoint where
  period : String
  count : ℤ
deriving DecidableEq

/-- The p50/p85/p95 period counts reported by the forecaster. The calendar
date attached to each (adding that many months to "now") and the constant
confidence labels are presentation formatting and are not modelled. -/
structure ForecastPercentiles where
  p50 : ℕ
  p85 : ℕ
  p95 : ℕ
deriving DecidableEq

/-- One row of the cumulative probability distribution. -/
structure DistributionEntry where
  periods : ℕ
  probability : ℤ
deriving DecidableEq

/-- Result record of `monteCarloForecast`. The degenerate result carries
`percentiles = none` (JS `{}`) and `avgThroughput = none` (property absent). -/
structure ForecastResult where
  remainingItems : ℤ
  simulations : ℕ
  avgThroughput : Option ℚ
  percentiles : Option ForecastPercentiles
  distribution : List DistributionEntry
  message : Option String
deriving DecidableEq

/-- One simulation trial, fuel-indexed so that the recursion is structural:
fuel counts the iterations left before the 100-period cap, so the loop guard
`itemsLeft > 0 && periods < 100` becomes `0 < itemsLeft` plus nonzero fuel.
`idx n` is the raw sampled value of iteration `n`, reduced mod the length. -/
def trialGo (tv : List ℤ) (idx : ℕ → ℕ) : ℕ → ℤ → ℕ → ℕ
  | 0, _, periods => periods
  | fuel + 1, itemsLeft, periods =>
    if 0 < itemsLeft then
      trialGo tv idx fuel (itemsLeft - tv.getD (idx periods % tv.length) 0) (periods + 1)
    else periods

/-- The number of periods one simulation trial records. -/
def trialPeriods (tv : List ℤ) (remaining : ℤ) (idx : ℕ → ℕ) : ℕ :=
  trialGo tv idx 100 remaining 0

/-- The list of per-trial period counts (`completionDays` before sorting);
`sampler sim` is the random index sequence of trial `sim`. -/
def simTrials (tv : List ℤ) (remaining : ℤ) (simulations : ℕ)
    (sampler : ℕ → ℕ → ℕ) : List ℕ :=
  (List.range simulations).map fun sim => trialPeriods tv remaining (sampler sim)

/-- The forecaster's percentile helper (it has no empty-array guard; on an
out-of-range index the JS source would yield `undefined`, which we totalize
to 0 — every use in the claims is in range). -/
def fcPercentile (arr : List ℕ) (p : ℚ) : ℕ :=
  arr.getD (max 0 (⌈(arr.length : ℚ) * p / 100⌉ - 1)).toNat 0

/-- The structured insufficient-data result. -/
def insufficientResult (remainingItems : ℤ) : ForecastResult :=
  ⟨remainingItems, 0, none, none, [], some "Insufficient data for forecast"⟩

/-- Embeds `monteCarloForecast(historicalThroughput, remainingItems, simulations)`.
The sampler stands for the `Math.random()` stream (see module docstring). -/
def monteCarloForecast (historicalThroughput : Option (List ThroughputPoint))
    (remainingItems : ℤ) (simulations : ℕ) (sampler : ℕ → ℕ → ℕ) : ForecastResult :=
  match historicalThroughput with
  | none => insufficientResult remainingItems
  | some hist =>
    if hist.length = 0 ∨ remainingItems ≤ 0 then insufficientResult remainingItems
    else
      let throughputValues := hist.map (·.count)
      let completionDays := simTrials throughputValues remainingItems simulations sampler
      let sorted := List.insertionSort (· ≤ ·) completionDays
      let maxPeriods := sorted.getLastD 0
      let distribution : List DistributionEntry :=
        (List.range (min maxPeriods 24)).map fun i =>
          let p := i + 1
          let count := (sorted.filter fun d => d ≤ p).length
          ⟨p, jsRound ((count : ℚ) / (simulations : ℚ) * 100)⟩
      ⟨remainingItems, simulations,
        some (round1 ((throughputValues.sum : ℚ) / (throughputValues.length : ℚ))),
        some ⟨fcPercentile sorted 50, fcPercentile sorted 85, fcPercentile sorted 95⟩,
        distribution, none⟩

/-! ### Specification-side definitions and concrete fixtures -/

/-- An epic that is not done, has no children, no blockers, and an overdue
due date: the source never reaches the no-child check in this situation. -/
def epicOverdueNoChildren : RawIssue :=
  { key := "EPIC-1", statusCategory := some "indeterminate",
    created := some 0, duedate := some 100 }

/-- An epic whose raw field map supplies a jobSize of 0 and whose children
carry 4 story points. -/
def epicZeroJobSize : EpicData :=
  ⟨"EPIC-4", "s", "In Progress", "indeterminate", "High", [], "a", some 0, none, none,
    0, none, ⟨3, 1, 1, 1, 4, 1, 33⟩, 33, "on-track",
    [("bvf", 1), ("tcf", 1), ("rrf", 1), ("jsf", 0)]⟩

/-- The field mapping pointing at the raw fields of `epicZeroJobSize`. -/
def fmZero : FieldMappings := ⟨"bvf", "tcf", "rrf", "jsf"⟩

/-- The epic of the claim's worked example: bv=5, tc=3, rr=2, js=2. -/
def epicWSJFExample : EpicData :=
  ⟨"EPIC-5", "s", "To Do", "new", "Medium", [], "a", some 0, none, none,
    0, none, ⟨0, 0, 0, 0, 0, 0, 0⟩, 0, "on-track",
    [("bvf", 5), ("tcf", 3), ("rrf", 2), ("jsf", 2)]⟩

/-- The nearest-rank index of the claim: `max(0, ceil(N * p / 100) - 1)`. -/
def nearestRankIndex (N : ℕ) (p : ℚ) : ℕ :=
  (max 0 (⌈(N : ℚ) * p / 100⌉ - 1)).toNat

/-! ### General helper lemmas -/

theorem jsOrQ_some_zero (x : ℚ) : jsOrQ (some x) 0 = x := by
  by_cases h : x = 0 <;> simp [jsOrQ, h]

theorem jsOrQ_some_of_ne (x d : ℚ) (h : x ≠ 0) : jsOrQ (some x) d = x := by
  simp [jsOrQ, h]

/-- Evaluation rule for `jsRound` on concrete rationals. -/
theorem jsRound_eq_of (q : ℚ) (z : ℤ) (h1 : (z : ℚ) ≤ q + 1/2) (h2 : q + 1/2 < z + 1) :
    jsRound q = z := by
  rw [jsRound, round_eq]
  exact Int.floor_eq_iff.mpr ⟨h1, by exact_mod_cast h2⟩

/-- Evaluation rule for `round2` on concrete rationals. -/
theorem round2_eq_of (q : ℚ) (z : ℤ) (h1 : (z : ℚ) ≤ q * 100 + 1/2)
    (h2 : q * 100 + 1/2 < z + 1) : round2 q = (z : ℚ) / 100 := by
  rw [round2, jsRound_eq_of _ z h1 h2]

/-! ### C1 and C2: health verdict rules -/

/-- C1 (counterexample): for an epic whose status category is not `done`,
with no unresolved blockers and no child issues but with a due date in the
past, `calculateEpicHealth` returns `at-risk`, not `no-data` — the no-child
rule does not fire ahead of the due-date rules. -/
theorem health_emptyChildren_dueDate_not_noData :
    epicOverdueNoChildren.statusCategory ≠ some "done" ∧
    unresolvedBlockersOf none = [] ∧
    calculateEpicHealth 300 epicOverdueNoChildren [] none =
      ⟨"at-risk", "Overdue (0% done)"⟩ ∧
    (calculateEpicHealth 300 epicOverdueNoChildren [] none).health ≠ "no-data" := by
  decide

/-- C1 (amended): for every epic whose own status category is not `done`,
with no unresolved blocking dependency, an empty child list **and no due
date set**, `calculateEpicHealth` returns verdict `no-data`. (With a due
date present the no-child check is skipped and the due-date rules apply.) -/
theorem health_noData_of_emptyChildren_noDueDate (now : ℤ) (epic : RawIssue)
    (deps : Option Dependencies) (hdone : epic.statusCategory ≠ some "done")
    (hblock : unresolvedBlockersOf deps = []) (hdue : epic.duedate = none) :
    calculateEpicHealth now epic [] deps = ⟨"no-data", "No child issues"⟩ := by
  simp [calculateEpicHealth, hdone, hblock, hdue, calculateEpicProgress]

theorem health_noData_of_emptyChildren_noDueDate_witness :
    calculateEpicHealth 0 ⟨"EPIC-2", none, none, some "new", none, none, none⟩ [] none =
      ⟨"no-data", "No child issues"⟩ :=
  health_noData_of_emptyChildren_noDueDate 0 _ none (by decide) rfl rfl

/-- C2: for every epic whose own status category is not `done`, if the
filtered `blockedBy` list (entries whose lowercased status is not in
{done, closed, resolved}) is non-empty, `calculateEpicHealth` returns
`blocked` with a reason naming exactly those blocker keys comma-joined in
filtered-list order, whatever the due-date or time state is. -/
theorem health_blocked_of_unresolvedBlockers (now : ℤ) (epic : RawIssue)
    (children : List ChildIssue) (deps : Option Dependencies)
    (hdone : epic.statusCategory ≠ some "done")
    (hblock : unresolvedBlockersOf deps ≠ []) :
    calculateEpicHealth now epic children deps =
      ⟨"blocked",
        "Blocked by " ++ String.intercalate ", " ((unresolvedBlockersOf deps).map (·.key))⟩ := by
  have hlen : (unresolvedBlockersOf deps).length > 0 := List.length_pos.mpr hblock
  simp [calculateEpicHealth, hdone, hlen]

theorem health_blocked_of_unresolvedBlockers_witness :
    calculateEpicHealth 0 ⟨"EPIC-3", none, none, some "indeterminate", none, some 0, some 100⟩
      [] (some ⟨[], [⟨"DEP-1", some "Open"⟩, ⟨"DEP-2", some "Done"⟩], []⟩) =
      ⟨"blocked", "Blocked by DEP-1"⟩ := by
  rw [health_blocked_of_unresolvedBlockers _ _ _ _ (by decide) (by decide)]
  rfl

/-! ### C3: WSJF in mapped mode -/

/-- C3 (counterexample): when the raw field map supplies jobSize = 0, the
source's `||` fallback chain replaces it with the child story points (here 4)
before the 0.5 floor, so the score is `round2((1+1+1)/4) = 0.75`, not the
claimed `round2((1+1+1)/max(0, 0.5)) = 6`. -/
theorem wsjf_mapped_zeroJobSize_counterexample :
    lookupRaw epicZeroJobSize fmZero.businessValue = some 1 ∧
    lookupRaw epicZeroJobSize fmZero.timeCriticality = some 1 ∧
    lookupRaw epicZeroJobSize fmZero.riskReduction = some 1 ∧
    lookupRaw epicZeroJobSize fmZero.jobSize = some 0 ∧
    (calculateWSJF 0 epicZeroJobSize (some fmZero)).wsjfScore = 3/4 ∧
    round2 (((1 : ℚ) + 1 + 1) / max 0 (1/2)) = 6 ∧
    ((3 : ℚ)/4) ≠ 6 := by
  refine ⟨rfl, rfl, rfl, rfl, ?_, ?_, by norm_num⟩
  · show round2 ((jsOrQ (some 1) 0 + jsOrQ (some 1) 0 + jsOrQ (some 1) 0) /
      max (jsOrQ (some 0) (jsOrQ (some 4) 1)) (1/2)) = 3/4
    norm_num [jsOrQ]
    rw [round2_eq_of _ 75 (by norm_num) (by norm_num)]
    norm_num
  · rw [max_eq_right (by norm_num : (0 : ℚ) ≤ 1/2),
      round2_eq_of _ 600 (by norm_num) (by norm_num)]
    norm_num

/-- C3 (amended): in mapped mode, whenever the raw field map supplies
businessValue `bv`, timeCriticality `tc`, riskReduction `rr` and a **nonzero**
jobSize `js` (a zero/falsy mapped job size instead falls back to the child
story points, then 1), `calculateWSJF` divides by `max js 0.5` — a divisor
that is always ≥ 0.5 — and reports `wsjfScore = round2((bv+tc+rr)/max js 0.5)`. -/
theorem wsjf_mapped_formula (now : ℤ) (epic : EpicData) (fm : FieldMappings)
    (bv tc rr js : ℚ)
    (hbv : lookupRaw epic fm.businessValue = some bv)
    (htc : lookupRaw epic fm.timeCriticality = some tc)
    (hrr : lookupRaw epic fm.riskReduction = some rr)
    (hjs : lookupRaw epic fm.jobSize = some js) (hjs0 : js ≠ 0) :
    (calculateWSJF now epic (some fm)).jobSize = max js (1/2) ∧
    (1/2 : ℚ) ≤ (calculateWSJF now epic (some fm)).jobSize ∧
    (calculateWSJF now epic (some fm)).wsjfScore = round2 ((bv + tc + rr) / max js (1/2)) := by
  have h : calculateWSJF now epic (some fm) =
      ⟨bv, tc, rr, max js (1/2), bv + tc + rr, round2 ((bv + tc + rr) / max js (1/2))⟩ := by
    simp [calculateWSJF, hbv, htc, hrr, hjs, jsOrQ_some_zero, jsOrQ_some_of_ne _ _ hjs0]
  refine ⟨by rw [h], by rw [h]; exact le_max_right _ _, by rw [h]⟩

theorem wsjf_mapped_formula_witness :
    (calculateWSJF 0 epicWSJFExample (some fmZero)).jobSize = max 2 (1/2) ∧
    (1/2 : ℚ) ≤ (calculateWSJF 0 epicWSJFExample (some fmZero)).jobSize ∧
    (calculateWSJF 0 epicWSJFExample (some fmZero)).wsjfScore =
      round2 (((5 : ℚ) + 3 + 2) / max 2 (1/2)) ∧
    round2 (((5 : ℚ) + 3 + 2) / max 2 (1/2)) = 5 := by
  refine ⟨?_, ?_, ?_, ?_⟩
  · exact (wsjf_mapped_formula 0 epicWSJFExample fmZero 5 3 2 2 rfl rfl rfl rfl (by norm_num)).1
  · exact (wsjf_mapped_formula 0 epicWSJFExample fmZero 5 3 2 2 rfl rfl rfl rfl (by norm_num)).2.1
  · exact (wsjf_mapped_formula 0 epicWSJFExample fmZero 5 3 2 2 rfl rfl rfl rfl (by norm_num)).2.2
  · rw [max_eq_left (by norm_num : (1/2 : ℚ) ≤ 2),
      round2_eq_of _ 500 (by norm_num) (by norm_num)]
    norm_num

/-! ### C4: degenerate forecast input -/

/-- C4: whenever the throughput history is missing or empty, or the remaining
item count is ≤ 0, `monteCarloForecast` returns the structured
insufficient-data result — simulations = 0, empty percentiles, empty
distribution, the "Insufficient data" message — and, being a total function
returning that value for every sampler, performs no simulation trial and
raises nothing. -/
theorem forecast_insufficient (ht : Option (List ThroughputPoint)) (remaining : ℤ)
    (simulations : ℕ) (sampler : ℕ → ℕ → ℕ)
    (h : ht = none ∨ ht = some [] ∨ remaining ≤ 0) :
    monteCarloForecast ht remaining simulations sampler = insufficientResult remaining ∧
    (monteCarloForecast ht remaining simulations sampler).simulations = 0 ∧
    (monteCarloForecast ht remaining simulations sampler).percentiles = none ∧
    (monteCarloForecast ht remaining simulations sampler).distribution = [] ∧
    (monteCarloForecast ht remaining simulations sampler).message =
      some "Insufficient data for forecast" := by
  have he : monteCarloForecast ht remaining simulations sampler = insufficientResult remaining := by
    rcases h with h | h | h
    · rw [h]; rfl
    · rw [h]; rfl
    · cases ht with
      | none => rfl
      | some hist => simp [monteCarloForecast, h]
  exact ⟨he, by rw [he]; rfl, by rw [he]; rfl, by rw [he]; rfl, by rw [he]; rfl⟩

theorem forecast_insufficient_witness :
    monteCarloForecast none 5 10000 (fun _ _ => 0) = insufficientResult 5 ∧
    (monteCarloForecast none 5 10000 (fun _ _ => 0)).simulations = 0 ∧
    (monteCarloForecast none 5 10000 (fun _ _ => 0)).percentiles = none ∧
    (monteCarloForecast none 5 10000 (fun _ _ => 0)).distribution = [] ∧
    (monteCarloForecast none 5 10000 (fun _ _ => 0)).message =
      some "Insufficient data for forecast" :=
  forecast_insufficient none 5 10000 (fun _ _ => 0) (Or.inl rfl)

/-! ### C7: the nearest-rank percentile helper -/

/-- Evaluation rule for `leadPercentile` at a concrete ceiling value. -/
theorem leadPercentile_eval (arr : List ℤ) (p : ℚ) (z : ℤ) (i : ℕ)
    (hlen : arr.length ≠ 0) (hceil : ⌈(arr.length : ℚ) * p / 100⌉ = (i : ℤ) + 1)
    (hget : arr.getD i 0 = z) : leadPercentile arr p = z := by
  rw [leadPercentile, if_neg hlen, hceil]
  simpa using hget

/-- Evaluation rule for `fcPercentile` at a concrete ceiling value. -/
theorem fcPercentile_eval (arr : List ℕ) (p : ℚ) (z : ℕ) (i : ℕ)
    (hceil : ⌈(arr.length : ℚ) * p / 100⌉ = (i : ℤ) + 1)
    (hget : arr.getD i 0 = z) : fcPercentile arr p = z := by
  rw [fcPercentile, hceil]
  simpa using hget

/-- C7: both percentile helpers (the guarded one of the lead/cycle-time
report and the unguarded one of the forecaster) select the element at the
nearest-rank index `max(0, ceil(N*p/100) - 1)` of a non-empty sorted array;
on `[1..10]`, p50 = 5 and p85 = 9. -/
theorem percentile_nearestRank :
    (∀ (arr : List ℤ) (p : ℚ), arr ≠ [] →
      leadPercentile arr p = arr.getD (nearestRankIndex arr.length p) 0) ∧
    (∀ (arr : List ℕ) (p : ℚ), arr ≠ [] →
      fcPercentile arr p = arr.getD (nearestRankIndex arr.length p) 0) ∧
    leadPercentile [1, 2, 3, 4, 5, 6, 7, 8, 9, 10] 50 = 5 ∧
    leadPercentile [1, 2, 3, 4, 5, 6, 7, 8, 9, 10] 85 = 9 ∧
    fcPercentile [1, 2, 3, 4, 5, 6, 7, 8, 9, 10] 50 = 5 ∧
    fcPercentile [1, 2, 3, 4, 5, 6, 7, 8, 9, 10] 85 = 9 := by
  have h50 : (⌈((10 : ℕ) : ℚ) * 50 / 100⌉ : ℤ) = (4 : ℕ) + 1 :=
    Int.ceil_eq_iff.mpr (by norm_num)
  have h85 : (⌈((10 : ℕ) : ℚ) * 85 / 100⌉ : ℤ) = (8 : ℕ) + 1 :=
    Int.ceil_eq_iff.mpr (by norm_num)
  refine ⟨fun arr p h => ?_, fun arr p h => rfl,
    leadPercentile_eval _ _ _ 4 (by decide) h50 (by decide),
    leadPercentile_eval _ _ _ 8 (by decide) h85 (by decide),
    fcPercentile_eval _ _ _ 4 h50 (by decide),
    fcPercentile_eval _ _ _ 8 h85 (by decide)⟩
  rw [leadPercentile, if_neg (by simpa using h)]
  rfl

theorem percentile_nearestRank_witness :
    leadPercentile [3, 7] 50 = [3, 7].getD (nearestRankIndex 2 50) 0 ∧
    fcPercentile [3, 7] 85 = [3, 7].getD (nearestRankIndex 2 85) 0 :=
  ⟨percentile_nearestRank.1 [3, 7] 50 (by decide),
   percentile_nearestRank.2.1 [3, 7] 85 (by decide)⟩

/-! ### C5: every simulation trial terminates within the period cap -/

theorem trialGo_le (tv : List ℤ) (idx : ℕ → ℕ) :
    ∀ (fuel : ℕ) (itemsLeft : ℤ) (periods : ℕ),
      trialGo tv idx fuel itemsLeft periods ≤ periods + fuel := by
  intro fuel
  induction fuel with
  | zero => intro items periods; simp [trialGo]
  | succ f ih =>
    intro items periods
    rw [trialGo]
    split
    · exact le_trans (ih _ _) (by omega)
    · omega

theorem trialGo_ge (tv : List ℤ) (idx : ℕ → ℕ) :
    ∀ (fuel : ℕ) (itemsLeft : ℤ) (periods : ℕ),
      periods ≤ trialGo tv idx fuel itemsLeft periods := by
  intro fuel
  induction fuel with
  | zero => intro items periods; simp [trialGo]
  | succ f ih =>
    intro items periods
    rw [trialGo]
    split
    · exact le_trans (by omega) (ih _ _)
    · omega

theorem trialGo_pos (tv : List ℤ) (idx : ℕ → ℕ) (fuel : ℕ) (itemsLeft : ℤ)
    (periods : ℕ) (hf : 0 < fuel) (hi : 0 < itemsLeft) :
    periods + 1 ≤ trialGo tv idx fuel itemsLeft periods := by
  cases fuel with
  | zero => omega
  | succ f => rw [trialGo, if_pos hi]; exact trialGo_ge tv idx f _ _

/-- C5: for every non-empty throughput history, every positive remaining-item
count, and every random index stream — zero or negative sampled throughput
included — each recorded trial of `monteCarloForecast` (an entry of
`simTrials`, the embedded `completionDays` list) is a period count between 1
and the 100-period cap; the whole computation is a total function. -/
theorem simTrials_bounds (hist : List ThroughputPoint) (hne : hist ≠ [])
    (remaining : ℤ) (hpos : 0 < remaining) (simulations : ℕ) (sampler : ℕ → ℕ → ℕ) :
    ∀ d ∈ simTrials (hist.map (·.count)) remaining simulations sampler,
      1 ≤ d ∧ d ≤ 100 := by
  intro d hd
  obtain ⟨sim, hsim, rfl⟩ := List.mem_map.mp hd
  constructor
  · exact trialGo_pos _ _ _ _ _ (by norm_num) hpos
  · simpa using trialGo_le (hist.map (·.count)) (sampler sim) 100 remaining 0

theorem simTrials_bounds_witness :
    (3 ∈ simTrials (([(⟨"a", 1⟩ : ThroughputPoint)]).map (·.count)) 3 1 (fun _ _ => 0)) ∧
    (1 ≤ 3 ∧ 3 ≤ 100) :=
  ⟨by decide,
    simTrials_bounds [⟨"a", 1⟩] (by decide) 3 (by decide) 1 (fun _ _ => 0) 3 (by decide)⟩

/-! ### C6: constant throughput makes the forecast sampler-independent -/

theorem trialGo_succ (tv : List ℤ) (idx : ℕ → ℕ) (fuel : ℕ) (itemsLeft : ℤ) (periods : ℕ) :
    trialGo tv idx (fuel + 1) itemsLeft periods =
      if 0 < itemsLeft then
        trialGo tv idx fuel (itemsLeft - tv.getD (idx periods % tv.length) 0) (periods + 1)
      else periods := rfl

theorem getD_all_eq {α : Type} (a d : α) :
    ∀ (l : List α), (∀ x ∈ l, x = a) → ∀ i, i < l.length → l.getD i d = a := by
  intro l
  induction l with
  | nil => intro _ i hi; simp at hi
  | cons x xs ih =>
    intro h i hi
    cases i with
    | zero => simpa using h x (by simp)
    | succ j =>
      rw [List.getD_cons_succ]
      exact ih (fun y hy => h y (by simp [hy])) j (by simpa using hi)

theorem getD_replicate_lt {α : Type} (a d : α) :
    ∀ (n i : ℕ), i < n → (List.replicate n a).getD i d = a := by
  intro n i hi
  exact getD_all_eq a d _ (fun x hx => List.eq_of_mem_replicate hx) i
    (by simpa using hi)

theorem trialPeriods_const_five (tv : List ℤ) (idx : ℕ → ℕ)
    (h5 : ∀ x ∈ tv, x = 5) (hne : tv ≠ []) : trialPeriods tv 10 idx = 2 := by
  have hlen : 0 < tv.length := List.length_pos.mpr hne
  have g : ∀ n : ℕ, tv.getD (idx n % tv.length) 0 = 5 := fun n =>
    getD_all_eq 5 0 tv h5 _ (Nat.mod_lt _ hlen)
  have s1 : trialPeriods tv 10 idx = trialGo tv idx 99 5 1 := by
    rw [trialPeriods, show (100 : ℕ) = 99 + 1 from rfl, trialGo_succ, if_pos (by norm_num), g 0]
    norm_num
  have s2 : trialGo tv idx 99 5 1 = trialGo tv idx 98 0 2 := by
    rw [show (99 : ℕ) = 98 + 1 from rfl, trialGo_succ, if_pos (by norm_num), g 1]
    norm_num
  have s3 : trialGo tv idx 98 0 2 = 2 := by
    rw [show (98 : ℕ) = 97 + 1 from rfl, trialGo_succ, if_neg (by norm_num)]
  rw [s1, s2, s3]

theorem simTrials_const_five (tv : List ℤ) (h5 : ∀ x ∈ tv, x = 5) (hne : tv ≠ [])
    (S : ℕ) (sampler : ℕ → ℕ → ℕ) :
    simTrials tv 10 S sampler = List.replicate S 2 := by
  rw [simTrials,
    List.map_congr_left (fun sim _ => trialPeriods_const_five tv (sampler sim) h5 hne),
    List.map_const', List.length_range]

theorem insertionSort_replicate (S a : ℕ) :
    List.insertionSort (· ≤ ·) (List.replicate S a) = List.replicate S a := by
  rw [List.eq_replicate_iff]
  constructor
  · rw [List.length_insertionSort, List.length_replicate]
  · intro b hb
    exact List.eq_of_mem_replicate ((List.mem_insertionSort _).mp hb)

theorem fcPercentile_replicate (S : ℕ) (hS : 0 < S) (a : ℕ) (p : ℚ) (hp : p ≤ 100) :
    fcPercentile (List.replicate S a) p = a := by
  rw [fcPercentile, List.length_replicate]
  have hceil : ⌈(S : ℚ) * p / 100⌉ ≤ (S : ℤ) := by
    apply Int.ceil_le.mpr
    rw [div_le_iff₀ (by norm_num : (0 : ℚ) < 100)]
    push_cast
    exact mul_le_mul_of_nonneg_left hp (by positivity)
  have hS' : (1 : ℤ) ≤ (S : ℤ) := by exact_mod_cast hS
  have hidx : (max 0 (⌈(S : ℚ) * p / 100⌉ - 1)).toNat < S := by omega
  exact getD_replicate_lt a 0 S _ hidx

/-- C6: with a throughput history whose every entry is 5 and 10 remaining
items, `monteCarloForecast` does not depend on the random sampling source:
every trial records exactly 2 periods, the reported percentiles are
p50 = p85 = p95 = 2, and any two runs (any two index streams `f`, `g`)
return the same result. -/
theorem forecast_constant_deterministic (hist : List ThroughputPoint)
    (h5 : ∀ t ∈ hist, t.count = 5) (hne : hist ≠ []) (S : ℕ) (hS : 0 < S)
    (f g : ℕ → ℕ → ℕ) :
    (∀ sim : ℕ, trialPeriods (hist.map (·.count)) 10 (f sim) = 2) ∧
    (monteCarloForecast (some hist) 10 S f).percentiles = some ⟨2, 2, 2⟩ ∧
    monteCarloForecast (some hist) 10 S f = monteCarloForecast (some hist) 10 S g := by
  have htv : ∀ x ∈ hist.map (·.count), x = 5 := by
    intro x hx
    obtain ⟨t, ht, rfl⟩ := List.mem_map.mp hx
    exact h5 t ht
  have htvne : hist.map (·.count) ≠ [] := by simpa using hne
  have hf := simTrials_const_five _ htv htvne S f
  have hg := simTrials_const_five _ htv htvne S g
  have hcond : ¬ (hist.length = 0 ∨ (10 : ℤ) ≤ 0) := by
    push_neg
    exact ⟨by simpa using hne, by norm_num⟩
  refine ⟨fun sim => trialPeriods_const_five _ (f sim) htv htvne, ?_, ?_⟩
  · simp only [monteCarloForecast, hf, if_neg hcond, insertionSort_replicate]
    rw [fcPercentile_replicate S hS 2 50 (by norm_num),
      fcPercentile_replicate S hS 2 85 (by norm_num),
      fcPercentile_replicate S hS 2 95 (by norm_num)]
  · simp only [monteCarloForecast, hf, hg]

theorem forecast_constant_deterministic_witness :
    trialPeriods (([(⟨"m", 5⟩ : ThroughputPoint)]).map (·.count)) 10 ((fun _ _ => 0) 0) = 2 ∧
    (monteCarloForecast (some [⟨"m", 5⟩]) 10 1 (fun _ _ => 0)).percentiles =
      some ⟨2, 2, 2⟩ :=
  ⟨(forecast_constant_deterministic [⟨"m", 5⟩] (by decide) (by decide) 1 (by decide)
      (fun _ _ => 0) (fun _ _ => 1)).1 0,
   (forecast_constant_deterministic [⟨"m", 5⟩] (by decide) (by decide) 1 (by decide)
      (fun _ _ => 0) (fun _ _ => 1)).2.1⟩

/-! ### C8: histogram bucket counts sum to the resolved-epic count -/

theorem getLastD_mem_cons {α : Type} :
    ∀ (t : List α) (c d : α), (c :: t).getLastD d ∈ c :: t := by
  intro t
  induction t with
  | nil => intro c d; simp [List.getLastD]
  | cons e t2 ih =>
    intro c d
    rw [List.getLastD_cons]
    exact List.mem_cons_of_mem c (ih e c)

theorem getLastD_mem {α : Type} (l : List α) (h : l ≠ []) (d : α) : l.getLastD d ∈ l := by
  cases l with
  | nil => exact absurd rfl h
  | cons c t => exact getLastD_mem_cons t c d

theorem le_getLastD_of_sorted :
    ∀ (l : List ℤ), List.Sorted (· ≤ ·) l → ∀ x ∈ l, ∀ d, x ≤ l.getLastD d := by
  intro l
  induction l with
  | nil => simp
  | cons b t ih =>
    intro hs x hx d
    rw [List.getLastD_cons]
    rcases List.mem_cons.mp hx with rfl | hxt
    · cases t with
      | nil => simp [List.getLastD]
      | cons c t2 =>
        exact (List.sorted_cons.mp hs).1 _ (getLastD_mem_cons t2 c x)
    · exact ih (List.sorted_cons.mp hs).2 x hxt b

theorem filter_length_split (l : List ℤ) (A B C : ℤ) (hAB : A ≤ B) (hBC : B ≤ C) :
    (l.filter fun d => A ≤ d ∧ d < C).length =
      (l.filter fun d => A ≤ d ∧ d < B).length +
      (l.filter fun d => B ≤ d ∧ d < C).length := by
  induction l with
  | nil => simp
  | cons x l ih =>
    simp only [List.filter_cons, decide_eq_true_eq]
    split_ifs <;> (try simp only [List.length_cons]) <;> omega

theorem hist_range_sum (l : List ℤ) :
    ∀ K : ℕ,
      ((List.range K).map (fun i : ℕ =>
        (l.filter fun d => 7 * (i : ℤ) ≤ d ∧ d < 7 * (i : ℤ) + 7).length)).sum =
      (l.filter fun d => 0 ≤ d ∧ d < 7 * (K : ℤ)).length := by
  intro K
  induction K with
  | zero =>
    simp only [List.range_zero, List.map_nil, List.sum_nil, Nat.cast_zero, mul_zero]
    symm
    rw [List.length_eq_zero, List.filter_eq_nil_iff]
    intro a _
    simp only [decide_eq_true_eq, not_and, not_lt]
    omega
  | succ K ih =>
    rw [List.range_succ, List.map_append, List.sum_append, ih]
    simp only [List.map_cons, List.map_nil, List.sum_cons, List.sum_nil, add_zero]
    have hsplit := filter_length_split l 0 (7 * (K : ℤ)) (7 * (K : ℤ) + 7)
      (by positivity) (by omega)
    have hpred : (l.filter fun d => 0 ≤ d ∧ d < 7 * ((K + 1 : ℕ) : ℤ)) =
        (l.filter fun d => 0 ≤ d ∧ d < 7 * (K : ℤ) + 7) := by
      apply List.filter_congr
      intro d _
      rw [decide_eq_decide]
      push_cast
      omega
    rw [hpred, hsplit]

/-- Sum of the histogram bucket counts of an ascending, non-negative list of
lead times: every element falls in exactly one 7-day bucket. -/
theorem leadHistogram_sum (sorted : List ℤ) (hsor : List.Sorted (· ≤ ·) sorted)
    (hpos : ∀ d ∈ sorted, 0 ≤ d) :
    ((leadHistogram sorted).map (·.count)).sum = sorted.length := by
  rcases eq_or_ne sorted [] with rfl | hne
  · simp [leadHistogram]
  · have hlen : sorted.length ≠ 0 := by simp [List.length_eq_zero, hne]
    have hmax0 : 0 ≤ sorted.getLastD 0 := hpos _ (getLastD_mem sorted hne 0)
    rw [leadHistogram, if_neg hlen, if_neg (by omega : ¬ sorted.getLastD 0 < 0),
      List.map_map]
    show ((List.range ((sorted.getLastD 0).toNat / 7 + 1)).map (fun i : ℕ =>
      (sorted.filter fun d => 7 * (i : ℤ) ≤ d ∧ d < 7 * (i : ℤ) + 7).length)).sum =
      sorted.length
    rw [hist_range_sum]
    have hK : sorted.getLastD 0 < 7 * (((sorted.getLastD 0).toNat / 7 + 1 : ℕ) : ℤ) := by
      have ht : sorted.getLastD 0 = ((sorted.getLastD 0).toNat : ℤ) :=
        (Int.toNat_of_nonneg hmax0).symm
      rw [ht]
      push_cast
      omega
    rw [List.filter_eq_self.mpr]
    intro d hd
    simp only [decide_eq_true_eq]
    exact ⟨hpos d hd, lt_of_le_of_lt (le_getLastD_of_sorted sorted hsor d hd 0) hK⟩

/-- C8: for every epic list, the 7-day lead-time histogram bucket counts of
`calculateEpicLeadCycleTime` sum to exactly the number of epics that are
resolved (status category `done` with both timestamps) and have a
non-negative rounded lead time. -/
theorem leadTime_histogram_sum (epics : List EpicData) :
    (((calculateEpicLeadCycleTime epics).histogram).map (·.count)).sum =
      (epics.filter fun e => isResolvedEpic e ∧ leadTimeDaysOf e ≥ 0).length := by
  have hhist : (calculateEpicLeadCycleTime epics).histogram =
      leadHistogram (List.insertionSort (· ≤ ·)
        (((epics.filter isResolvedEpic).filter fun e => leadTimeDaysOf e ≥ 0).map
          leadTimeDaysOf)) := rfl
  have hperm := List.perm_insertionSort (· ≤ ·)
    (((epics.filter isResolvedEpic).filter fun e => leadTimeDaysOf e ≥ 0).map leadTimeDaysOf)
  have hpos : ∀ d ∈ List.insertionSort (· ≤ ·)
      (((epics.filter isResolvedEpic).filter fun e => leadTimeDaysOf e ≥ 0).map
        leadTimeDaysOf), 0 ≤ d := by
    intro d hd
    obtain ⟨e, he, rfl⟩ := List.mem_map.mp (hperm.mem_iff.mp hd)
    simpa using List.of_mem_filter he
  rw [hhist, leadHistogram_sum _ (List.sorted_insertionSort _ _) hpos,
    hperm.length_eq, List.length_map, List.filter_filter]
  congr 1
  apply List.filter_congr
  intro e _
  simp [Bool.and_comm]

/-! ### C9: initiative aggregation conserves the epic count -/

theorem mapGet_mapSet_self {β : Type} (m : List (String × β)) (k : String) (v : β) :
    mapGet (mapSet m k v) k = some v := by
  induction m with
  | nil => simp [mapSet, mapGet]
  | cons kv rest ih =>
    obtain ⟨k0, v0⟩ := kv
    by_cases h : k0 = k
    · simp [mapSet, mapGet, h]
    · simp [mapSet, mapGet, h, ih]

theorem mapGet_mapSet_ne {β : Type} (m : List (String × β)) (k k' : String) (v : β)
    (h : k' ≠ k) : mapGet (mapSet m k v) k' = mapGet m k' := by
  have hk : ¬ k = k' := fun he => h he.symm
  induction m with
  | nil => simp [mapSet, mapGet, hk]
  | cons kv rest ih =>
    obtain ⟨k0, v0⟩ := kv
    rw [mapSet]
    by_cases h0 : k0 = k
    · rw [if_pos h0]
      have hne : ¬ k0 = k' := fun he => hk (h0.symm.trans he)
      simp [mapGet, hne]
    · rw [if_neg h0]
      by_cases h1 : k0 = k'
      · simp [mapGet, h1]
      · simp [mapGet, h1, ih]

theorem mapGet_some_mem {β : Type} (m : List (String × β)) (k : String) (b : β)
    (h : mapGet m k = some b) : b ∈ m.map Prod.snd := by
  induction m with
  | nil => simp [mapGet] at h
  | cons kv rest ih =>
    obtain ⟨k0, v0⟩ := kv
    by_cases h0 : k0 = k
    · rw [mapGet, if_pos h0] at h
      simp [Option.some_injective _ h]
    · rw [mapGet, if_neg h0] at h
      simp [ih h]

theorem mem_values_mapSet {β : Type} (m : List (String × β)) (k : String) (v : β) :
    ∀ b' ∈ (mapSet m k v).map Prod.snd, b' = v ∨ b' ∈ m.map Prod.snd := by
  induction m with
  | nil => simp [mapSet]
  | cons kv rest ih =>
    obtain ⟨k0, v0⟩ := kv
    by_cases h0 : k0 = k
    · intro b' hb'
      rw [mapSet, if_pos h0] at hb'
      rcases List.mem_cons.mp hb' with rfl | hmem
      · exact Or.inl rfl
      · exact Or.inr (by simp [hmem])
    · intro b' hb'
      rw [mapSet, if_neg h0] at hb'
      rcases List.mem_cons.mp hb' with rfl | hmem
      · exact Or.inr (by simp)
      · rcases ih b' hmem with h | h
        · exact Or.inl h
        · exact Or.inr (by simp [h])

theorem sum_map_mapSet {β : Type} (f : β → ℕ) (m : List (String × β)) (k : String)
    (v b : β) (h : mapGet m k = some b) :
    (((mapSet m k v).map Prod.snd).map f).sum + f b =
      ((m.map Prod.snd).map f).sum + f v := by
  induction m with
  | nil => simp [mapGet] at h
  | cons kv rest ih =>
    obtain ⟨k0, v0⟩ := kv
    by_cases h0 : k0 = k
    · rw [mapGet, if_pos h0] at h
      have hv0 : v0 = b := Option.some_injective _ h
      subst hv0
      simp only [mapSet, if_pos h0, List.map_cons, List.sum_cons]
      omega
    · rw [mapGet, if_neg h0] at h
      simp only [mapSet, if_neg h0, List.map_cons, List.sum_cons]
      have := ih h
      omega

theorem assignEpic_inv (m : List (String × InitiativeBucket)) (e : EpicData)
    (hu : (mapGet m "_unlinked").isSome)
    (hb : ∀ b ∈ m.map Prod.snd, b.totalEpics = b.epics.length) :
    (mapGet (assignEpic m e) "_unlinked").isSome ∧
    (∀ b ∈ (assignEpic m e).map Prod.snd, b.totalEpics = b.epics.length) ∧
    (((assignEpic m e).map Prod.snd).map (·.totalEpics)).sum =
      ((m.map Prod.snd).map (·.totalEpics)).sum + 1 := by
  have main : ∀ (tk : String) (b : InitiativeBucket), mapGet m tk = some b →
      (mapGet (mapSet m tk (pushEpic b e)) "_unlinked").isSome ∧
      (∀ b' ∈ (mapSet m tk (pushEpic b e)).map Prod.snd,
        b'.totalEpics = b'.epics.length) ∧
      (((mapSet m tk (pushEpic b e)).map Prod.snd).map (·.totalEpics)).sum =
        ((m.map Prod.snd).map (·.totalEpics)).sum + 1 := by
    intro tk b hget
    refine ⟨?_, ?_, ?_⟩
    · by_cases htk : "_unlinked" = tk
      · rw [htk, mapGet_mapSet_self]; rfl
      · rw [mapGet_mapSet_ne _ _ _ _ htk]; exact hu
    · intro b' hb'
      rcases mem_values_mapSet _ _ _ b' hb' with rfl | hmem
      · have e1 : (pushEpic b e).totalEpics = b.totalEpics + 1 := rfl
        have e2 : (pushEpic b e).epics.length = b.epics.length + 1 := by
          show (b.epics ++ [_]).length = b.epics.length + 1
          rw [List.length_append]
          rfl
        rw [e1, e2, hb b (mapGet_some_mem _ _ _ hget)]
      · exact hb b' hmem
    · have hs := sum_map_mapSet (fun b => b.totalEpics) m tk (pushEpic b e) b hget
      have hpush : (pushEpic b e).totalEpics = b.totalEpics + 1 := rfl
      simp only [] at hs
      rw [hpush] at hs
      omega
  by_cases hp : (mapGet m (jsOrS e.parentKey "_unlinked")).isSome
  · obtain ⟨b, hget⟩ := Option.isSome_iff_exists.mp hp
    have ha : assignEpic m e = mapSet m (jsOrS e.parentKey "_unlinked") (pushEpic b e) := by
      simp [assignEpic, hp, hget]
    rw [ha]
    exact main _ b hget
  · obtain ⟨b, hget⟩ := Option.isSome_iff_exists.mp hu
    have ha : assignEpic m e = mapSet m "_unlinked" (pushEpic b e) := by
      simp [assignEpic, hp, hget]
    rw [ha]
    exact main _ b hget

theorem foldl_assign_inv (es : List EpicData) :
    ∀ m, (mapGet m "_unlinked").isSome →
      (∀ b ∈ m.map Prod.snd, b.totalEpics = b.epics.length) →
      (mapGet (es.foldl assignEpic m) "_unlinked").isSome ∧
      (∀ b ∈ (es.foldl assignEpic m).map Prod.snd, b.totalEpics = b.epics.length) ∧
      (((es.foldl assignEpic m).map Prod.snd).map (·.totalEpics)).sum =
        ((m.map Prod.snd).map (·.totalEpics)).sum + es.length := by
  induction es with
  | nil => intro m h1 h2; exact ⟨h1, h2, by simp⟩
  | cons e es ih =>
    intro m h1 h2
    obtain ⟨g1, g2, g3⟩ := assignEpic_inv m e h1 h2
    obtain ⟨f1, f2, f3⟩ := ih (assignEpic m e) g1 g2
    refine ⟨f1, f2, ?_⟩
    rw [List.foldl_cons] at *
    simp only [List.length_cons]
    omega

theorem foldl_seed_pres (initiatives : List RawIssue) :
    ∀ m, (∀ b ∈ m.map Prod.snd, b.totalEpics = 0 ∧ b.epics = []) →
      ∀ b ∈ ((initiatives.foldl (fun m i => mapSet m i.key (seedBucket i)) m).map Prod.snd),
        b.totalEpics = 0 ∧ b.epics = [] := by
  induction initiatives with
  | nil => intro m h; simpa using h
  | cons i is ih =>
    intro m h
    apply ih
    intro b hb
    rcases mem_values_mapSet _ _ _ b hb with rfl | hmem
    · exact ⟨rfl, rfl⟩
    · exact h b hmem

theorem sum_filter_zero {α : Type} (f : α → ℕ) (p : α → Bool) (l : List α)
    (h : ∀ b ∈ l, p b = false → f b = 0) :
    ((l.filter p).map f).sum = (l.map f).sum := by
  induction l with
  | nil => rfl
  | cons x l ih =>
    have ihl := ih fun b hb => h b (List.mem_cons_of_mem x hb)
    rw [List.filter_cons]
    by_cases hx : p x = true
    · rw [if_pos hx]
      simp only [List.map_cons, List.sum_cons]
      omega
    · rw [if_neg hx]
      have h0 : f x = 0 := h x (List.mem_cons_self x l) (Bool.not_eq_true _ ▸ hx)
      simp only [List.map_cons, List.sum_cons, h0, ihl]
      omega

/-- C9: the sum of `totalEpics` over the initiatives returned by
`aggregateByInitiative` equals the number of input epics — each epic is
pushed onto exactly one bucket (its parent's when that key is seeded,
otherwise the unlinked sentinel) — and any bucket present before the final
filter but missing from the output is the unlinked bucket with no epics. -/
theorem aggregate_totalEpics (initiatives : List RawIssue) (epics : List EpicData) :
    (((aggregateByInitiative initiatives epics)).map (·.totalEpics)).sum = epics.length ∧
    ∀ b ∈ aggregatePre initiatives epics, b ∉ aggregateByInitiative initiatives epics →
      b.key = "_unlinked" ∧ b.epics = [] := by
  have h0 : ∀ b ∈ ((initiatives.foldl (fun m i => mapSet m i.key (seedBucket i))
      []).map Prod.snd), b.totalEpics = 0 ∧ b.epics = [] :=
    foldl_seed_pres initiatives [] (by simp)
  have h1 : ∀ b ∈ ((mapSet (initiatives.foldl (fun m i => mapSet m i.key (seedBucket i)) [])
      "_unlinked" unlinkedBucket).map Prod.snd), b.totalEpics = 0 ∧ b.epics = [] := by
    intro b hb
    rcases mem_values_mapSet _ _ _ b hb with rfl | hmem
    · exact ⟨rfl, rfl⟩
    · exact h0 b hmem
  have hu1 : (mapGet (mapSet (initiatives.foldl (fun m i => mapSet m i.key (seedBucket i)) [])
      "_unlinked" unlinkedBucket) "_unlinked").isSome := by
    rw [mapGet_mapSet_self]; rfl
  have hsum1 : (((mapSet (initiatives.foldl (fun m i => mapSet m i.key (seedBucket i)) [])
      "_unlinked" unlinkedBucket).map Prod.snd).map (·.totalEpics)).sum = 0 := by
    apply List.sum_eq_zero
    intro x hx
    obtain ⟨b, hb, rfl⟩ := List.mem_map.mp hx
    exact (h1 b hb).1
  obtain ⟨hu2, hb2, hsum2⟩ := foldl_assign_inv epics _ hu1
    (fun b hb => by rw [(h1 b hb).1, (h1 b hb).2]; rfl)
  have hfin : ∀ b ∈ aggregatePre initiatives epics, b.totalEpics = b.epics.length := by
    intro b hb
    obtain ⟨b0, hb0, rfl⟩ := List.mem_map.mp hb
    show (finalizeBucket b0).totalEpics = (finalizeBucket b0).epics.length
    have e1 : (finalizeBucket b0).totalEpics = b0.totalEpics := rfl
    have e2 : (finalizeBucket b0).epics = b0.epics := rfl
    rw [e1, e2]
    exact hb2 b0 hb0
  have hsumpre : ((aggregatePre initiatives epics).map (·.totalEpics)).sum = epics.length := by
    show (((((epics.foldl assignEpic (mapSet (initiatives.foldl
      (fun m i => mapSet m i.key (seedBucket i)) []) "_unlinked" unlinkedBucket)).map
      Prod.snd).map finalizeBucket)).map (·.totalEpics)).sum = epics.length
    rw [List.map_map]
    have hcomp : ((fun b : InitiativeBucket => b.totalEpics) ∘ finalizeBucket) =
        fun b : InitiativeBucket => b.totalEpics := rfl
    rw [hcomp]
    omega
  constructor
  · rw [show aggregateByInitiative initiatives epics = (aggregatePre initiatives epics).filter
      (fun i => i.key ≠ "_unlinked" ∨ i.epics.length > 0) from rfl]
    rw [sum_filter_zero]
    · exact hsumpre
    · intro b hb hfalse
      have hlen := hfin b hb
      simp only [decide_eq_false_iff_not, not_or, not_lt, Nat.le_zero, ne_eq,
        not_not] at hfalse
      omega
  · intro b hb hnotin
    have hfalse : ¬ (b.key ≠ "_unlinked" ∨ b.epics.length > 0) := by
      intro hcon
      exact hnotin (List.mem_filter.mpr ⟨hb, by simpa using hcon⟩)
    push_neg at hfalse
    exact ⟨hfalse.1, List.length_eq_zero.mp (by omega)⟩

theorem aggregate_totalEpics_witness :
    ((aggregateByInitiative [] []).map (·.totalEpics)).sum = ([] : List EpicData).length ∧
    ((finalizeBucket unlinkedBucket).key = "_unlinked" ∧
      (finalizeBucket unlinkedBucket).epics = []) := by
  refine ⟨(aggregate_totalEpics [] []).1, (aggregate_totalEpics [] []).2 _ ?_ ?_⟩
  · show finalizeBucket unlinkedBucket ∈ aggregatePre [] []
    rw [show aggregatePre [] [] = [finalizeBucket unlinkedBucket] from rfl]
    exact List.mem_singleton.mpr rfl
  · intro hmem
    have h := (List.mem_filter.mp hmem).2
    rw [show (finalizeBucket unlinkedBucket).key = "_unlinked" from rfl] at h
    rw [show (finalizeBucket unlinkedBucket).epics = [] from rfl] at h
    simp at h

/-! ### C10: WIP metrics count each in-progress epic exactly once -/

theorem bumpCount_sum (m : List (String × ℕ)) (k : String) :
    ((bumpCount m k).map Prod.snd).sum = (m.map Prod.snd).sum + 1 := by
  induction m with
  | nil => rfl
  | cons kv rest ih =>
    obtain ⟨k0, v0⟩ := kv
    by_cases h : k0 = k
    · simp only [bumpCount, if_pos h, List.map_cons, List.sum_cons]
      omega
    · simp only [bumpCount, if_neg h, List.map_cons, List.sum_cons, ih]
      omega

theorem foldl_bump_sum {α : Type} (g : α → String) (l : List α) :
    ∀ m, ((l.foldl (fun m e => bumpCount m (g e)) m).map Prod.snd).sum =
      (m.map Prod.snd).sum + l.length := by
  induction l with
  | nil => intro m; simp
  | cons x l ih =>
    intro m
    rw [List.foldl_cons, ih (bumpCount m (g x)), bumpCount_sum]
    simp only [List.length_cons]
    omega

theorem sortedNameCounts_sum (bl : List (String × ℕ)) :
    ((List.insertionSort (fun a b => a.count ≥ b.count)
      (bl.map fun kv => (⟨kv.1, kv.2⟩ : NameCount))).map (·.count)).sum =
    (bl.map Prod.snd).sum := by
  have hp := List.perm_insertionSort (fun a b : NameCount => a.count ≥ b.count)
    (bl.map fun kv => (⟨kv.1, kv.2⟩ : NameCount))
  rw [(hp.map (·.count)).sum_eq, List.map_map]
  have hcomp : ((fun nc : NameCount => nc.count) ∘
      fun kv : String × ℕ => (⟨kv.1, kv.2⟩ : NameCount)) = Prod.snd := rfl
  rw [hcomp]

/-- C10: `calculateWIPMetrics` is conservative: `totalWIP` equals the number
of input epics with status category `indeterminate`, the length of the
`wipAge` list, the sum of the `wipByAssignee` counts, and the sum of the
`wipByInitiative` counts — each in-progress epic is counted exactly once in
each grouping. -/
theorem wip_conservation (now : ℤ) (epics : List EpicData)
    (initiatives : Option (List WIPInitiative)) :
    (calculateWIPMetrics now epics initiatives).totalWIP =
      (epics.filter fun e => e.statusCategory = "indeterminate").length ∧
    (calculateWIPMetrics now epics initiatives).totalWIP =
      (calculateWIPMetrics now epics initiatives).wipAge.length ∧
    (calculateWIPMetrics now epics initiatives).totalWIP =
      ((calculateWIPMetrics now epics initiatives).wipByAssignee.map (·.count)).sum ∧
    (calculateWIPMetrics now epics initiatives).totalWIP =
      ((calculateWIPMetrics now epics initiatives).wipByInitiative.map (·.count)).sum := by
  refine ⟨?_, ?_, ?_, ?_⟩
  · show ((epics.filter fun e : EpicData => e.statusCategory == "indeterminate")).length = _
    congr 1
  · show ((epics.filter fun e : EpicData => e.statusCategory == "indeterminate")).length =
      (List.insertionSort (fun a b : WIPAgeEntry => a.ageDays ≥ b.ageDays)
        (((epics.filter fun e : EpicData => e.statusCategory == "indeterminate")).map
          (fun e : EpicData =>
            (⟨e.key, e.summary, e.assignee,
              match e.created with
              | some c => jsRound (((now - c : ℤ) : ℚ) / 86400000)
              | none => 0, e.health⟩ : WIPAgeEntry)))).length
    rw [List.length_insertionSort, List.length_map]
  · show ((epics.filter fun e : EpicData => e.statusCategory == "indeterminate")).length =
      ((List.insertionSort (fun a b : NameCount => a.count ≥ b.count)
        ((((epics.filter fun e : EpicData => e.statusCategory == "indeterminate")).foldl
          (fun m e => bumpCount m (jsOrStr e.assignee "Unassigned")) []).map
          (fun kv : String × ℕ => (⟨kv.1, kv.2⟩ : NameCount)))).map
        (fun nc : NameCount => nc.count)).sum
    rw [sortedNameCounts_sum]
    have hf := foldl_bump_sum (fun e : EpicData => jsOrStr e.assignee "Unassigned")
      ((epics.filter fun e : EpicData => e.statusCategory == "indeterminate")) []
    simpa using hf.symm
  · show ((epics.filter fun e : EpicData => e.statusCategory == "indeterminate")).length =
      ((List.insertionSort (fun a b : NameCount => a.count ≥ b.count)
        ((((epics.filter fun e : EpicData => e.statusCategory == "indeterminate")).foldl
          (fun m e => bumpCount m (wipInitiativeName initiatives e)) []).map
          (fun kv : String × ℕ => (⟨kv.1, kv.2⟩ : NameCount)))).map
        (fun nc : NameCount => nc.count)).sum
    rw [sortedNameCounts_sum]
    have hf := foldl_bump_sum (wipInitiativeName initiatives)
      ((epics.filter fun e : EpicData => e.statusCategory == "indeterminate")) []
    simpa using hf.symm

end Dashboard
